import Mathlib

/-!
Verification of the `ploomber.inline` module's specified behaviour: grid
expansion, tag scanning, DAG construction from plain functions, serial and
parallel execution, persistence, and the debug controller.  The module's
definitions here are modelled from the specification (the Python module
itself ships outside this tree; its test suite `tests/test_inline.py` is
used as concrete evidence).
-/

namespace PloomberInline

/-- Runtime values flowing between tasks: integers, Python lists/series of
integers, data frames as named integer columns, and the `None` produced by a
body with no terminal expression. -/
inductive Value where
  | int (n : Int)
  | list (xs : List Int)
  | series (xs : List Int)
  | table (cols : List (String × List Int))
  | vnone
deriving DecidableEq, Repr

/-- Errors a task body can raise while executing. -/
inductive RunError where
  | nameError (missing : String)
  | zeroDivision
  | typeError
deriving DecidableEq, Repr

/-! ## Grid expansion

Modelled from the spec: a grid declaration is an ordered mapping from
parameter name to an ordered sequence of candidate values; expansion
produces the cross-product iterating the rightmost-declared parameter
fastest; stacked declarations expand independently and concatenate,
closest-to-the-function declaration first. -/

/-- An ordered grid declaration: parameter name to candidate values. -/
abbrev Grid := List (String × List Int)

/-- Number of bindings a grid's cross-product contains. -/
def gridSize (g : Grid) : Nat :=
  (g.map (fun e => e.2.length)).prod

/-- Modelled from the spec: cross-product of the declared value sequences,
iterating the rightmost-declared parameter fastest. -/
def expandGrid : Grid → List (List (String × Int))
  | [] => [[]]
  | (p, vs) :: rest =>
      (vs.map (fun v => (expandGrid rest).map (fun b => (p, v) :: b))).flatten

/-- Modelled from the spec: stacked grid declarations (listed closest to the
function first) expand independently and concatenate in that order. -/
def expandStacked (gs : List Grid) : List (List (String × Int)) :=
  (gs.map expandGrid).flatten

/-- Modelled from the spec: names of the task variants; `<base>-<i>` with a
0-based index in emission order, and no suffix when there is a single
variant. -/
def variantNames (base : String) (n : Nat) : List String :=
  if n ≤ 1 then [base]
  else (List.range n).map (fun i => base ++ "-" ++ toString i)

/-- Modelled from the spec: with no grid declared the function yields exactly
one variant with an empty binding; otherwise each stacked declaration
contributes its own cross-product block. -/
def variantBindings (gs : List Grid) : List (List (String × Int)) :=
  if gs.isEmpty then [[]] else expandStacked gs

/-- The ordered variant list of a function: name paired with its grid
binding. -/
def variantsOf (base : String) (gs : List Grid) :
    List (String × List (String × Int)) :=
  let bs := variantBindings gs
  (variantNames base bs.length).zip bs

/-- Mixed-radix decoding of a flat index into one binding of the
cross-product: parameter `p_j` receives the value indexed by
`(i / block_j) % |values_j|` where `block_j` is the product of the value
counts of the parameters declared after `p_j`.  This is the arithmetic
meaning of "rightmost-declared parameter fastest". -/
def mixedRadix : Grid → Nat → List (String × Int)
  | [], _ => []
  | (p, vs) :: rest, i =>
      (p, vs.getD (i / gridSize rest) 0) :: mixedRadix rest (i % gridSize rest)

theorem sum_map_const {α : Type} (l : List α) (c : Nat) :
    (l.map (fun _ => c)).sum = l.length * c := by
  induction l with
  | nil => simp
  | cons a t ih => simp [ih, Nat.succ_mul, Nat.add_comm]

theorem length_expandGrid : ∀ g : Grid, (expandGrid g).length = gridSize g
  | [] => rfl
  | (p, vs) :: rest => by
      simp only [expandGrid, gridSize, List.length_flatten, List.map_map,
        List.map_cons, List.prod_cons, Function.comp_def, List.length_map,
        length_expandGrid rest]
      rw [sum_map_const]

theorem flatten_getElem?_const {α : Type} (blocks : List (List α)) (B : Nat)
    (hB : ∀ b ∈ blocks, b.length = B) :
    ∀ i, i < blocks.length * B →
      blocks.flatten[i]? = blocks[i / B]?.bind (fun b => b[i % B]?) := by
  induction blocks with
  | nil => intro i h; simp at h
  | cons b rest ih =>
      intro i h
      have hb : b.length = B := hB b (List.mem_cons_self b rest)
      have hBpos : 0 < B := by
        rcases Nat.eq_zero_or_pos B with h0 | h0
        · rw [h0, Nat.mul_zero] at h; omega
        · exact h0
      have hlen : (b :: rest).length * B = rest.length * B + B := by
        rw [List.length_cons, Nat.succ_mul]
      by_cases hiB : i < B
      · have hdiv : i / B = 0 := Nat.div_eq_of_lt hiB
        have hmod : i % B = i := Nat.mod_eq_of_lt hiB
        have hleft : (b ++ rest.flatten)[i]? = b[i]? :=
          List.getElem?_append_left (by omega)
        simp [List.flatten_cons, hleft, hdiv, hmod]
      · obtain ⟨j, rfl⟩ : ∃ j, i = B + j := ⟨i - B, by omega⟩
        have hrest : ∀ c ∈ rest, c.length = B := fun c hc =>
          hB c (List.mem_cons_of_mem b hc)
        have hj : j < rest.length * B := by rw [hlen] at h; omega
        have hright : (b ++ rest.flatten)[B + j]? = rest.flatten[j]? := by
          rw [List.getElem?_append_right (by omega)]
          congr 1
          omega
        have hdiv : (B + j) / B = j / B + 1 := by
          rw [Nat.add_comm B j, Nat.add_div_right _ hBpos]
        have hmod : (B + j) % B = j % B := by
          rw [Nat.add_comm B j, Nat.add_mod_right]
        simp only [List.flatten_cons, hright, hdiv, hmod, List.getElem?_cons_succ]
        exact ih hrest j hj

theorem expandGrid_getElem? :
    ∀ (g : Grid) (i : Nat), i < gridSize g →
      (expandGrid g)[i]? = some (mixedRadix g i)
  | [], i, h => by
      have : i = 0 := by simpa [gridSize] using h
      subst this
      rfl
  | (p, vs) :: rest, i, h => by
      have hsize : gridSize ((p, vs) :: rest) = vs.length * gridSize rest := by
        simp [gridSize]
      have hB : ∀ b ∈ vs.map (fun v => (expandGrid rest).map (fun c => (p, v) :: c)),
          b.length = gridSize rest := by
        intro b hb
        simp only [List.mem_map] at hb
        obtain ⟨v, _, rfl⟩ := hb
        simp [length_expandGrid]
      have hi : i < (vs.map (fun v => (expandGrid rest).map (fun c => (p, v) :: c))).length
          * gridSize rest := by
        rw [List.length_map]
        omega
      have hBpos : 0 < gridSize rest := by
        rcases Nat.eq_zero_or_pos (gridSize rest) with h0 | h0
        · rw [hsize, h0, Nat.mul_zero] at h; omega
        · exact h0
      have hidx : i / gridSize rest < vs.length :=
        Nat.div_lt_iff_lt_mul hBpos |>.mpr (by rw [hsize] at h; omega)
      have hmodlt : i % gridSize rest < gridSize rest := Nat.mod_lt _ hBpos
      have htail := expandGrid_getElem? rest (i % gridSize rest) hmodlt
      simp only [expandGrid, mixedRadix]
      rw [flatten_getElem?_const _ _ hB i hi, List.getElem?_map,
        List.getElem?_eq_getElem hidx]
      simp [htail]
      rw [List.getElem?_eq_getElem hidx]
      rfl

/-! ## Tag scanner

Modelled from the spec: scan a statement's source text for a line matching
`# tag=<value>` (case-sensitive, arbitrary whitespace before the `#`);
`<value>` is the maximal run of word characters and hyphens immediately
following the `=`; absence yields no tag; only the first match is
honoured. -/

/-- Characters allowed in a tag value: word characters and hyphens. -/
def isWordOrHyphen (c : Char) : Bool :=
  c.isAlphanum || c = '_' || c = '-'

/-- Horizontal whitespace permitted before the `#` of a tag comment. -/
def isBlankChar (c : Char) : Bool :=
  c = ' ' || c = '\t'

/-- The literal `# tag=` marker. -/
def tagMarker : List Char :=
  ['#', ' ', 't', 'a', 'g', '=']

/-- Split source text into lines at newline characters. -/
def splitLinesAux : List Char → List Char → List (List Char)
  | [], acc => [acc.reverse]
  | '\n' :: rest, acc => acc.reverse :: splitLinesAux rest []
  | c :: rest, acc => splitLinesAux rest (c :: acc)

/-- All lines of a character sequence. -/
def splitLines (cs : List Char) : List (List Char) :=
  splitLinesAux cs []

/-- Tag carried by a single line, when the line is a tag comment. -/
def lineTag (line : List Char) : Option String :=
  let l := line.dropWhile isBlankChar
  if tagMarker.isPrefixOf l then
    let v := (l.drop 6).takeWhile isWordOrHyphen
    if v.isEmpty then none else some (String.mk v)
  else none

/-- Modelled from the spec: the tag scanner over a statement's source text,
returning the first tag-comment value found, if any. -/
def parse_tag (src : String) : Option String :=
  (splitLines src.toList).findSome? lineTag

/-- A line of the form `# tag=<value>` as the spec describes it: optional
horizontal whitespace, the marker, then a non-empty run of word characters
and hyphens, then anything. -/
def SpecTagLine (line : List Char) : Prop :=
  ∃ ws v rest, line = ws ++ tagMarker ++ v ++ rest ∧
    (∀ c ∈ ws, isBlankChar c) ∧ v ≠ [] ∧ (∀ c ∈ v, isWordOrHyphen c)

theorem dropWhile_blank_marker (ws tl : List Char)
    (hws : ∀ c ∈ ws, isBlankChar c) :
    (ws ++ (tagMarker ++ tl)).dropWhile isBlankChar = tagMarker ++ tl := by
  have hdropm : (tagMarker ++ tl).dropWhile isBlankChar = tagMarker ++ tl := by
    rw [show tagMarker ++ tl = '#' :: (tagMarker.tail ++ tl) from rfl]
    rw [List.dropWhile_cons]
    have : isBlankChar '#' = false := by decide
    rw [this]
    simp
  induction ws with
  | nil => simpa using hdropm
  | cons c t ih =>
      have hc : isBlankChar c := hws c (List.mem_cons_self c t)
      rw [List.cons_append, List.dropWhile_cons, if_pos hc]
      exact ih (fun d hd => hws d (List.mem_cons_of_mem c hd))

theorem takeWhile_all_append (p : Char → Bool) (v rest : List Char)
    (hv : ∀ c ∈ v, p c = true) :
    (v ++ rest).takeWhile p = v ++ rest.takeWhile p := by
  induction v with
  | nil => rfl
  | cons c t ih =>
      rw [List.cons_append, List.takeWhile_cons,
        if_pos (hv c (List.mem_cons_self c t))]
      rw [ih (fun d hd => hv d (List.mem_cons_of_mem c hd))]
      rfl

theorem takeWhile_head_false (p : Char → Bool) (rest : List Char)
    (hrest : ∀ c cs, rest = c :: cs → p c = false) :
    rest.takeWhile p = [] := by
  cases rest with
  | nil => rfl
  | cons c cs => rw [List.takeWhile_cons, if_neg (by rw [hrest c cs rfl]; decide)]

theorem lineTag_of_specTagLine {line : List Char} (h : SpecTagLine line) :
    (lineTag line).isSome := by
  obtain ⟨ws, v, rest, rfl, hws, hv, hword⟩ := h
  obtain ⟨c0, v', rfl⟩ : ∃ c0 v', v = c0 :: v' := by
    cases v with
    | nil => exact absurd rfl hv
    | cons a b => exact ⟨a, b, rfl⟩
  have hc0 : isWordOrHyphen c0 := hword c0 (List.mem_cons_self c0 v')
  simp only [lineTag, List.append_assoc,
    dropWhile_blank_marker ws (c0 :: v' ++ rest) hws]
  have hpre : tagMarker.isPrefixOf (tagMarker ++ (c0 :: v' ++ rest)) := by
    rw [List.isPrefixOf_iff_prefix]
    exact ⟨c0 :: v' ++ rest, rfl⟩
  rw [if_pos hpre]
  have hdrop6 : (tagMarker ++ (c0 :: v' ++ rest)).drop 6 = c0 :: v' ++ rest := rfl
  rw [hdrop6]
  have : (c0 :: (v' ++ rest)).takeWhile isWordOrHyphen
      = c0 :: (v' ++ rest).takeWhile isWordOrHyphen := by
    rw [List.takeWhile_cons, if_pos hc0]
  simp only [List.cons_append, this]
  simp

theorem lineTag_pos (ws v rest : List Char)
    (hws : ∀ c ∈ ws, isBlankChar c) (hv : v ≠ [])
    (hword : ∀ c ∈ v, isWordOrHyphen c)
    (hrest : ∀ c cs, rest = c :: cs → isWordOrHyphen c = false) :
    lineTag (ws ++ tagMarker ++ v ++ rest) = some (String.mk v) := by
  have hassoc : ws ++ tagMarker ++ v ++ rest = ws ++ (tagMarker ++ (v ++ rest)) := by
    simp [List.append_assoc]
  rw [hassoc]
  simp only [lineTag, dropWhile_blank_marker ws (v ++ rest) hws]
  have hpre : tagMarker.isPrefixOf (tagMarker ++ (v ++ rest)) := by
    rw [List.isPrefixOf_iff_prefix]
    exact ⟨v ++ rest, rfl⟩
  rw [if_pos hpre]
  have hdrop6 : (tagMarker ++ (v ++ rest)).drop 6 = v ++ rest := rfl
  rw [hdrop6, takeWhile_all_append isWordOrHyphen v rest hword,
    takeWhile_head_false isWordOrHyphen rest hrest, List.append_nil]
  have hne : v.isEmpty = false := by
    cases v with
    | nil => exact absurd rfl hv
    | cons c t => rfl
  rw [if_neg (by rw [hne]; decide)]

theorem findSome?_eq_of_prefix_none {α β : Type} (f : α → Option β) :
    ∀ (pre rest : List α), (∀ x ∈ pre, f x = none) →
      List.findSome? f (pre ++ rest) = List.findSome? f rest := by
  intro pre
  induction pre with
  | nil => intro rest _; rfl
  | cons a t ih =>
      intro rest h
      rw [List.cons_append, List.findSome?_cons, h a (List.mem_cons_self a t)]
      exact ih rest (fun x hx => h x (List.mem_cons_of_mem a hx))

theorem specTagLine_of_lineTag {l : List Char} {t : String}
    (h : lineTag l = some t) : SpecTagLine l := by
  unfold lineTag at h
  by_cases hpre : tagMarker.isPrefixOf (l.dropWhile isBlankChar)
  · rw [if_pos hpre] at h
    obtain ⟨m, hm⟩ := List.isPrefixOf_iff_prefix.mp hpre
    have hm6 : (l.dropWhile isBlankChar).drop 6 = m := by rw [← hm]; rfl
    rw [hm6] at h
    by_cases hve : (m.takeWhile isWordOrHyphen).isEmpty
    · rw [if_pos hve] at h; exact Option.noConfusion h
    · refine ⟨l.takeWhile isBlankChar, m.takeWhile isWordOrHyphen,
        m.dropWhile isWordOrHyphen, ?_, ?_, ?_, ?_⟩
      · conv_lhs => rw [← List.takeWhile_append_dropWhile isBlankChar l]
        rw [← hm]
        conv_lhs => rw [← List.takeWhile_append_dropWhile isWordOrHyphen m]
        simp [List.append_assoc]
      · intro c hc; exact List.mem_takeWhile_imp hc
      · intro hnil
        rw [hnil] at hve
        exact hve rfl
      · intro c hc; exact List.mem_takeWhile_imp hc
  · rw [if_neg hpre] at h; exact Option.noConfusion h

theorem parse_tag_eq_none_of_no_tag_line (src : String)
    (h : ∀ l ∈ splitLines src.toList, ¬ SpecTagLine l) :
    parse_tag src = none := by
  unfold parse_tag
  rw [List.findSome?_eq_none_iff]
  intro l hl
  cases hsome : lineTag l with
  | none => rfl
  | some t => exact absurd (specTagLine_of_lineTag hsome) (h l hl)

/-- The positive half of the tag-scanning rule, for every source: if the
first tag-comment line of the source is optional whitespace, the marker,
then a non-empty run of word characters and hyphens `v` followed by either
nothing or a character outside the run alphabet, the scanner returns exactly
`v` — the maximal run immediately following the `=`. -/
theorem parse_tag_first_tag_line (src : String)
    (pre : List (List Char)) (l : List Char) (suf : List (List Char))
    (ws v rest : List Char)
    (hsplit : splitLines src.toList = pre ++ l :: suf)
    (hpre : ∀ l' ∈ pre, ¬ SpecTagLine l')
    (hl : l = ws ++ tagMarker ++ v ++ rest)
    (hws : ∀ c ∈ ws, isBlankChar c) (hv : v ≠ [])
    (hword : ∀ c ∈ v, isWordOrHyphen c)
    (hrest : ∀ c cs, rest = c :: cs → isWordOrHyphen c = false) :
    parse_tag src = some (String.mk v) := by
  have hpre_none : ∀ l' ∈ pre, lineTag l' = none := by
    intro l' hl'
    cases hsome : lineTag l' with
    | none => rfl
    | some t => exact absurd (specTagLine_of_lineTag hsome) (hpre l' hl')
  unfold parse_tag
  rw [hsplit, findSome?_eq_of_prefix_none lineTag pre (l :: suf) hpre_none,
    List.findSome?_cons, hl, lineTag_pos ws v rest hws hv hword hrest]

/-! ## Tasks, DAG construction and execution

Modelled from the spec: a task variant holds its name, the upstream task
names inferred from its parameters, the pre-bound environment (grid binding
plus externally supplied parameters), and the compiled body.  Dependency and
grid values behave as pre-defined names visible to the body, not as call
arguments requiring signature validation; a name the body references that
was never bound fails at execution with a name-resolution error inside the
document, not earlier. -/

/-- Persisted/intermediate store: task name to produced value, in completion
order. -/
abbrev Store := List (String × Value)

/-- One task variant of the DAG.  `run` is the compiled body: it reads its
execution namespace and either returns the primary output (`Value.vnone`
when the body has no terminal expression) or raises. -/
structure Task where
  name : String
  deps : List String
  env0 : List (String × Value)
  run : (String → Option Value) → Except RunError Value

/-- The execution namespace of a task: pre-bound values first (grid binding
and external parameters), then upstream outputs resolved through `r`. -/
def mkEnv (t : Task) (r : String → Option Value) : String → Option Value :=
  fun k =>
    match t.env0.lookup k with
    | some v => some v
    | none => if t.deps.contains k then r k else none

/-- Resolve a task name against the store of completed outputs. -/
def storeLookup (σ : Store) : String → Option Value :=
  fun n => σ.lookup n

/-- Find the task carrying a given name. -/
def findTask (tasks : List Task) (n : String) : Option Task :=
  tasks.find? (fun t => t.name == n)

/-- Execute tasks by name in the given order, threading the store; the first
failure aborts the remaining build. -/
def runNames (tasks : List Task) : Store → List String → Except (String × RunError) Store
  | σ, [] => .ok σ
  | σ, n :: rest =>
      match findTask tasks n with
      | none => .error (n, .nameError n)
      | some t =>
          match t.run (mkEnv t (storeLookup σ)) with
          | .error e => .error (n, e)
          | .ok v => runNames tasks (σ ++ [(n, v)]) rest

/-- Every scheduled name resolves to a task whose dependencies were all
scheduled earlier. -/
def depsBefore (tasks : List Task) : List String → List String → Bool
  | _, [] => true
  | seen, n :: rest =>
      (match findTask tasks n with
       | some t => t.deps.all (fun d => seen.contains d)
       | none => false) && depsBefore tasks (seen ++ [n]) rest

/-- A schedule is valid when it lists every task exactly once and respects
the dependency edges. -/
def validSchedule (tasks : List Task) (s : List String) : Prop :=
  s.Perm (tasks.map Task.name) ∧ depsBefore tasks [] s = true

/-- Names of the tasks whose dependencies are all done and which have not
run yet, in declaration order. -/
def readyNames (tasks : List Task) (done : List String) : List String :=
  (tasks.filter (fun t =>
    !done.contains t.name && t.deps.all (fun d => done.contains d))).map Task.name

/-- Serial policy: repeatedly run the first ready task (topological order
with ties broken by declaration order). -/
def serialAux : Nat → List Task → List String → List String
  | 0, _, _ => []
  | fuel + 1, tasks, done =>
      match readyNames tasks done with
      | [] => []
      | n :: _ => n :: serialAux fuel tasks (done ++ [n])

/-- The serial execution order of a task list. -/
def serialScheduleOf (tasks : List Task) : List String :=
  serialAux tasks.length tasks []

/-- Parallel policy: repeatedly launch the whole wave of ready tasks; a task
becomes eligible exactly when all its dependencies have completed. -/
def parallelAux : Nat → List Task → List String → List String
  | 0, _, _ => []
  | fuel + 1, tasks, done =>
      match readyNames tasks done with
      | [] => []
      | ns => ns ++ parallelAux fuel tasks (done ++ ns)

/-- The parallel execution order of a task list (waves concatenated). -/
def parallelScheduleOf (tasks : List Task) : List String :=
  parallelAux tasks.length tasks []

/-- Build-level errors. -/
inductive BuildError where
  | duplicateTaskNames
  | cyclicGraph
  | taskFailed (taskName : String) (cause : RunError)
deriving DecidableEq, Repr

/-- An assembled DAG: its task variants plus the output location. -/
structure Dag where
  tasks : List Task
  output : String

/-! ## From functions to a DAG -/

/-- External parameter map: task base name to parameter bindings. -/
abbrev ExtParams := List (String × List (String × Value))

/-- A plain function definition: name, ordered parameter names, stacked grid
declarations (closest to the function first) and the compiled body. -/
structure FuncDef where
  name : String
  params : List String
  grids : List Grid
  run : (String → Option Value) → Except RunError Value

/-- Externally supplied parameters for one task base name. -/
def paramsFor (ext : ExtParams) (base : String) : List (String × Value) :=
  (ext.lookup base).getD []

/-- Task variants of one function: parameter names matching known task base
names (and not bound by the grid) become dependencies; grid values and
external parameters are pre-bound into the namespace. -/
def tasksOfFunc (baseNames : List String) (ext : ExtParams) (f : FuncDef) : List Task :=
  (variantsOf f.name f.grids).map (fun nv =>
    { name := nv.1
      deps := f.params.filter (fun p =>
        baseNames.contains p && !(nv.2.map Prod.fst).contains p)
      env0 := nv.2.map (fun pv => (pv.1, Value.int pv.2)) ++ paramsFor ext f.name
      run := f.run })

/-- All task variants of a function list, in declaration order. -/
def tasksOf (funcs : List FuncDef) (ext : ExtParams) : List Task :=
  (funcs.map (tasksOfFunc (funcs.map FuncDef.name) ext)).flatten

/-- Modelled from the spec: assemble the DAG, validating global
name-uniqueness after grid expansion and acyclicity.  Parameter names that
match neither a task nor an external parameter are NOT validated here: the
module intentionally injects bindings into the namespace without signature
validation, so such names surface only at execution time (see the failing
test `test_decorated_root_with_input_data`). -/
def dagFromFunctionsE (funcs : List FuncDef) (ext : ExtParams) (output : String) :
    Except BuildError Dag :=
  let tasks := tasksOf funcs ext
  if (tasks.map Task.name).Nodup then
    if (serialScheduleOf tasks).length = tasks.length then .ok ⟨tasks, output⟩
    else .error .cyclicGraph
  else .error .duplicateTaskNames

/-- Modelled from the spec and `test_root_node_with_no_arguments`: when no
output location is given, outputs go under the directory `output`. -/
def dagFromFunctions (funcs : List FuncDef) (ext : ExtParams) : Except BuildError Dag :=
  dagFromFunctionsE funcs ext "output"

/-- Build the DAG under the serial policy. -/
def buildSerial (d : Dag) : Except BuildError Store :=
  match runNames d.tasks [] (serialScheduleOf d.tasks) with
  | .ok σ => .ok σ
  | .error (n, e) => .error (.taskFailed n e)

/-- Build the DAG under the parallel policy. -/
def buildParallel (d : Dag) : Except BuildError Store :=
  match runNames d.tasks [] (parallelScheduleOf d.tasks) with
  | .ok σ => .ok σ
  | .error (n, e) => .error (.taskFailed n e)

/-- Construct and build in one step (serial policy). -/
def buildFromFunctions (funcs : List FuncDef) (ext : ExtParams) (output : String) :
    Except BuildError Store :=
  match dagFromFunctionsE funcs ext output with
  | .error e => .error e
  | .ok d => buildSerial d

/-- Construct and build with the default output location. -/
def buildFromFunctionsDefault (funcs : List FuncDef) (ext : ExtParams) :
    Except BuildError Store :=
  buildFromFunctions funcs ext "output"

/-! ## Persistence (the pickled-output convention) -/

/-- Whether a value is the absent primary output. -/
def Value.isNone : Value → Bool
  | .vnone => true
  | _ => false

/-- Serialized form of a string: length-prefixed character codes. -/
def encodeString (s : String) : List Int :=
  (s.length : Int) :: s.toList.map (fun c => (c.toNat : Int))

/-- Serialized form of a value (the model's pickle). -/
def encodeValue : Value → List Int
  | .int n => [0, n]
  | .list xs => 1 :: (xs.length : Int) :: xs
  | .series xs => 2 :: (xs.length : Int) :: xs
  | .table cols =>
      3 :: (cols.length : Int) ::
        (cols.map (fun c => encodeString c.1 ++ ((c.2.length : Int) :: c.2))).flatten
  | .vnone => [4]

/-- Read back `k` integers. -/
def decodeInts : Nat → List Int → Option (List Int × List Int)
  | 0, xs => some ([], xs)
  | _ + 1, [] => none
  | k + 1, x :: xs => (decodeInts k xs).map (fun r => (x :: r.1, r.2))

/-- Read back `k` characters. -/
def decodeChars : Nat → List Int → Option (List Char × List Int)
  | 0, xs => some ([], xs)
  | _ + 1, [] => none
  | k + 1, x :: xs => (decodeChars k xs).map (fun r => (Char.ofNat x.toNat :: r.1, r.2))

/-- Read back a length-prefixed string. -/
def decodeString : List Int → Option (String × List Int)
  | [] => none
  | n :: rest => (decodeChars n.toNat rest).map (fun r => (String.mk r.1, r.2))

/-- Read back `k` named columns. -/
def decodeCols : Nat → List Int → Option (List (String × List Int) × List Int)
  | 0, xs => some ([], xs)
  | k + 1, xs =>
      (decodeString xs).bind (fun s =>
        match s.2 with
        | [] => none
        | m :: rest =>
            (decodeInts m.toNat rest).bind (fun c =>
              (decodeCols k c.2).map (fun r => ((s.1, c.1) :: r.1, r.2))))

/-- Read back a value (the model's unpickle). -/
def decodeValue : List Int → Option (Value × List Int)
  | 0 :: n :: rest => some (.int n, rest)
  | 1 :: n :: rest => (decodeInts n.toNat rest).map (fun r => (.list r.1, r.2))
  | 2 :: n :: rest => (decodeInts n.toNat rest).map (fun r => (.series r.1, r.2))
  | 3 :: n :: rest => (decodeCols n.toNat rest).map (fun r => (.table r.1, r.2))
  | 4 :: rest => some (.vnone, rest)
  | _ => none

/-- Persisted primary-output files: one per task that returned a value,
keyed by task name under the output location. -/
def persistFiles (dir : String) (σ : Store) : List (String × List Int) :=
  (σ.filter (fun e => !e.2.isNone)).map
    (fun e => (dir ++ "/" ++ e.1, encodeValue e.2))

/-! ## Debug controller

Modelled from the spec: on a task failure, `debug-later` persists a snapshot
named `<task_name>.dump` and propagates a build error wrapping the original
cause; `debug-now` invokes the interactive attach hook with the failing
callable and the task name before the error propagates; `normal` propagates
immediately. -/

/-- The debug modes. -/
inductive DebugMode where
  | normal | now | later

/-- Outcome of a build under a debug mode: the build result, the snapshot
files written and the attach-hook invocations (failing callable, task
name). -/
structure DebugOutcome where
  result : Except BuildError Store
  dumps : List String
  hookCalls : List ((Unit → Except RunError Value) × String)

/-- Execute under a debug mode. -/
def runDebug (tasks : List Task) (mode : DebugMode) : Store → List String → DebugOutcome
  | σ, [] => ⟨.ok σ, [], []⟩
  | σ, n :: rest =>
      match findTask tasks n with
      | none => ⟨.error (.taskFailed n (.nameError n)), [], []⟩
      | some t =>
          match t.run (mkEnv t (storeLookup σ)) with
          | .ok v => runDebug tasks mode (σ ++ [(n, v)]) rest
          | .error e =>
              match mode with
              | .normal => ⟨.error (.taskFailed n e), [], []⟩
              | .later => ⟨.error (.taskFailed n e), [n ++ ".dump"], []⟩
              | .now => ⟨.error (.taskFailed n e), [],
                  [(fun _ => t.run (mkEnv t (storeLookup σ)), n)]⟩

/-! ## Determinism of execution across schedules

Any two valid schedules of the same task list produce the same store,
pointwise by task name: the execution policy affects scheduling only, never
results. -/

theorem lookup_append_store (σ δ : Store) (k : String) :
    (σ ++ δ).lookup k =
      match σ.lookup k with
      | some v => some v
      | none => δ.lookup k := by
  induction σ with
  | nil => rfl
  | cons a σ ih =>
      obtain ⟨ka, va⟩ := a
      by_cases hk : k = ka
      · subst hk
        simp [List.lookup]
      · have hbeq : (k == ka) = false := beq_eq_false_iff_ne.mpr hk
        simp [List.lookup, hbeq, ih]

theorem lookup_eq_none_store (σ : Store) (k : String)
    (h : k ∉ σ.map Prod.fst) : σ.lookup k = none := by
  induction σ with
  | nil => rfl
  | cons a σ ih =>
      obtain ⟨ka, va⟩ := a
      simp only [List.map_cons, List.mem_cons] at h
      push_neg at h
      have hbeq : (k == ka) = false := beq_eq_false_iff_ne.mpr h.1
      simp [List.lookup, hbeq, ih h.2]

theorem lookup_isSome_store (σ : Store) (k : String)
    (h : k ∈ σ.map Prod.fst) : (σ.lookup k).isSome = true := by
  induction σ with
  | nil => simp at h
  | cons a σ ih =>
      obtain ⟨ka, va⟩ := a
      by_cases hk : k = ka
      · subst hk; simp [List.lookup]
      · have hbeq : (k == ka) = false := beq_eq_false_iff_ne.mpr hk
        simp only [List.map_cons, List.mem_cons] at h
        rcases h with h | h
        · exact absurd h hk
        · simp [List.lookup, hbeq, ih h]

theorem lookup_append_left_store {σ : Store} (δ : Store) {k : String}
    (h : k ∈ σ.map Prod.fst) : (σ ++ δ).lookup k = σ.lookup k := by
  rw [lookup_append_store]
  obtain ⟨v, hv⟩ := Option.isSome_iff_exists.mp (lookup_isSome_store σ k h)
  rw [hv]

theorem lookup_append_right_store {σ : Store} (δ : Store) {k : String}
    (h : k ∉ σ.map Prod.fst) : (σ ++ δ).lookup k = δ.lookup k := by
  rw [lookup_append_store, lookup_eq_none_store σ k h]

theorem mkEnv_congr (t : Task) (r1 r2 : String → Option Value)
    (h : ∀ d ∈ t.deps, r1 d = r2 d) : mkEnv t r1 = mkEnv t r2 := by
  funext k
  unfold mkEnv
  cases t.env0.lookup k with
  | some v => rfl
  | none =>
      by_cases hd : t.deps.contains k
      · simp only [hd, if_true]
        exact h k (List.elem_iff.mp hd)
      · have hnm : k ∉ t.deps := fun hm => hd (List.elem_iff.mpr hm)
        simp [hnm]

theorem runNames_shape (tasks : List Task) :
    ∀ (s : List String) (σ σf : Store), runNames tasks σ s = .ok σf →
      σf.map Prod.fst = σ.map Prod.fst ++ s := by
  intro s
  induction s with
  | nil =>
      intro σ σf h
      simp only [runNames] at h
      cases h
      simp
  | cons n rest ih =>
      intro σ σf h
      simp only [runNames] at h
      cases hft : findTask tasks n with
      | none => simp only [hft] at h; exact Except.noConfusion h
      | some t =>
          simp only [hft] at h
          cases hrun : t.run (mkEnv t (storeLookup σ)) with
          | error e => simp only [hrun] at h; exact Except.noConfusion h
          | ok v =>
              simp only [hrun] at h
              have := ih (σ ++ [(n, v)]) σf h
              simpa using this

/-- The value each task produced, characterized against the final store:
re-running the task's body on the final store reproduces its stored
output. -/
def RunChar (tasks : List Task) (σf : Store) (n : String) : Prop :=
  ∃ t v, findTask tasks n = some t ∧
    t.run (mkEnv t (storeLookup σf)) = .ok v ∧ σf.lookup n = some v

theorem runNames_char_aux (tasks : List Task) :
    ∀ (suf : List String) (σp : Store),
      depsBefore tasks (σp.map Prod.fst) suf = true →
      (σp.map Prod.fst ++ suf).Nodup →
      (∀ m ∈ σp.map Prod.fst, ∃ t v, findTask tasks m = some t ∧
        (∀ d ∈ t.deps, d ∈ σp.map Prod.fst) ∧
        t.run (mkEnv t (storeLookup σp)) = .ok v ∧ σp.lookup m = some v) →
      ∀ σf, runNames tasks σp suf = .ok σf →
      (∀ m ∈ σp.map Prod.fst ++ suf, ∃ t v, findTask tasks m = some t ∧
        (∀ d ∈ t.deps, d ∈ σf.map Prod.fst) ∧
        t.run (mkEnv t (storeLookup σf)) = .ok v ∧ σf.lookup m = some v) := by
  intro suf
  induction suf with
  | nil =>
      intro σp _ _ hinv σf hrun
      simp only [runNames] at hrun
      cases hrun
      simpa using hinv
  | cons n rest ih =>
      intro σp hdeps hnodup hinv σf hrun
      simp only [depsBefore, Bool.and_eq_true] at hdeps
      obtain ⟨hhead, htail⟩ := hdeps
      cases hft : findTask tasks n with
      | none => rw [hft] at hhead; exact Bool.noConfusion hhead
      | some t =>
          rw [hft] at hhead
          have hdept : ∀ d ∈ t.deps, d ∈ σp.map Prod.fst := by
            intro d hd
            exact List.elem_iff.mp (List.all_eq_true.mp hhead d hd)
          simp only [runNames, hft] at hrun
          cases hrunv : t.run (mkEnv t (storeLookup σp)) with
          | error e => rw [hrunv] at hrun; exact Except.noConfusion hrun
          | ok v =>
              rw [hrunv] at hrun
              have hkeys' : (σp ++ [(n, v)]).map Prod.fst = σp.map Prod.fst ++ [n] := by
                simp
              have hnotin : n ∉ σp.map Prod.fst := by
                have hdisj := (List.nodup_append.mp hnodup).2.2
                exact fun hmem => hdisj hmem (List.mem_cons_self n rest)
              have henv_stable : ∀ t' : Task,
                  (∀ d ∈ t'.deps, d ∈ σp.map Prod.fst) →
                  mkEnv t' (storeLookup (σp ++ [(n, v)])) = mkEnv t' (storeLookup σp) := by
                intro t' hdeps'
                apply mkEnv_congr
                intro d hd
                exact lookup_append_left_store [(n, v)] (hdeps' d hd)
              have hinv' : ∀ m ∈ (σp ++ [(n, v)]).map Prod.fst,
                  ∃ t' v', findTask tasks m = some t' ∧
                    (∀ d ∈ t'.deps, d ∈ (σp ++ [(n, v)]).map Prod.fst) ∧
                    t'.run (mkEnv t' (storeLookup (σp ++ [(n, v)]))) = .ok v' ∧
                    (σp ++ [(n, v)]).lookup m = some v' := by
                intro m hm
                rw [hkeys', List.mem_append, List.mem_singleton] at hm
                rcases hm with hm | hm
                · obtain ⟨t', v', hft', hdeps', hrun', hlook'⟩ := hinv m hm
                  refine ⟨t', v', hft', ?_, ?_, ?_⟩
                  · intro d hd
                    rw [hkeys']
                    exact List.mem_append_left _ (hdeps' d hd)
                  · rw [henv_stable t' hdeps']; exact hrun'
                  · rw [lookup_append_left_store [(n, v)] hm]; exact hlook'
                · rw [hm]
                  refine ⟨t, v, hft, ?_, ?_, ?_⟩
                  · intro d hd
                    rw [hkeys']
                    exact List.mem_append_left _ (hdept d hd)
                  · rw [henv_stable t hdept]; exact hrunv
                  · rw [lookup_append_right_store [(n, v)] hnotin]
                    simp [List.lookup]
              have hdeps2 : depsBefore tasks ((σp ++ [(n, v)]).map Prod.fst) rest = true := by
                rw [hkeys']; exact htail
              have hnodup2 : ((σp ++ [(n, v)]).map Prod.fst ++ rest).Nodup := by
                rw [hkeys', List.append_assoc]
                simpa using hnodup
              have := ih (σp ++ [(n, v)]) hdeps2 hnodup2 hinv' σf hrun
              intro m hm
              apply this
              rw [hkeys', List.append_assoc]
              simpa using hm

theorem runNames_exists_aux (tasks : List Task) (σ1 : Store) :
    ∀ (suf : List String) (σp : Store),
      depsBefore tasks (σp.map Prod.fst) suf = true →
      (σp.map Prod.fst ++ suf).Nodup →
      (∀ m ∈ σp.map Prod.fst, σp.lookup m = σ1.lookup m) →
      (∀ m ∈ suf, RunChar tasks σ1 m) →
      ∃ σf, runNames tasks σp suf = .ok σf ∧
        σf.map Prod.fst = σp.map Prod.fst ++ suf ∧
        (∀ m ∈ σf.map Prod.fst, σf.lookup m = σ1.lookup m) := by
  intro suf
  induction suf with
  | nil =>
      intro σp _ _ hagree _
      exact ⟨σp, rfl, by simp, hagree⟩
  | cons n rest ih =>
      intro σp hdeps hnodup hagree hchar
      simp only [depsBefore, Bool.and_eq_true] at hdeps
      obtain ⟨hhead, htail⟩ := hdeps
      obtain ⟨t, v, hft, hrunv, hlook⟩ := hchar n (List.mem_cons_self n rest)
      rw [hft] at hhead
      have hdept : ∀ d ∈ t.deps, d ∈ σp.map Prod.fst := by
        intro d hd
        exact List.elem_iff.mp (List.all_eq_true.mp hhead d hd)
      have henv : mkEnv t (storeLookup σp) = mkEnv t (storeLookup σ1) := by
        apply mkEnv_congr
        intro d hd
        exact hagree d (hdept d hd)
      have hstep : t.run (mkEnv t (storeLookup σp)) = .ok v := by
        rw [henv]; exact hrunv
      have hkeys' : (σp ++ [(n, v)]).map Prod.fst = σp.map Prod.fst ++ [n] := by simp
      have hnotin : n ∉ σp.map Prod.fst := by
        have hdisj := (List.nodup_append.mp hnodup).2.2
        exact fun hmem => hdisj hmem (List.mem_cons_self n rest)
      have hagree' : ∀ m ∈ (σp ++ [(n, v)]).map Prod.fst,
          (σp ++ [(n, v)]).lookup m = σ1.lookup m := by
        intro m hm
        rw [hkeys', List.mem_append, List.mem_singleton] at hm
        rcases hm with hm | hm
        · rw [lookup_append_left_store [(n, v)] hm]
          exact hagree m hm
        · rw [hm]
          rw [lookup_append_right_store [(n, v)] hnotin]
          simp only [List.lookup]
          simpa using hlook.symm
      have hdeps2 : depsBefore tasks ((σp ++ [(n, v)]).map Prod.fst) rest = true := by
        rw [hkeys']; exact htail
      have hnodup2 : ((σp ++ [(n, v)]).map Prod.fst ++ rest).Nodup := by
        rw [hkeys', List.append_assoc]
        simpa using hnodup
      have hchar2 : ∀ m ∈ rest, RunChar tasks σ1 m := fun m hm =>
        hchar m (List.mem_cons_of_mem n hm)
      obtain ⟨σf, hrunf, hkeysf, hagreef⟩ := ih (σp ++ [(n, v)]) hdeps2 hnodup2 hagree' hchar2
      refine ⟨σf, ?_, ?_, hagreef⟩
      · simp only [runNames, hft, hstep]
        exact hrunf
      · rw [hkeysf, hkeys', List.append_assoc]
        rfl

theorem runNames_deterministic (tasks : List Task)
    (hnodup : (tasks.map Task.name).Nodup)
    (s1 s2 : List String)
    (hv1 : validSchedule tasks s1) (hv2 : validSchedule tasks s2)
    (σ1 : Store) (h1 : runNames tasks [] s1 = .ok σ1) :
    ∃ σ2, runNames tasks [] s2 = .ok σ2 ∧
      ∀ n, σ2.lookup n = σ1.lookup n := by
  have hn1 : s1.Nodup := (hv1.1.nodup_iff).mpr hnodup
  have hn2 : s2.Nodup := (hv2.1.nodup_iff).mpr hnodup
  have hchar1 := runNames_char_aux tasks s1 [] hv1.2 (by simpa using hn1)
    (by intro m hm; simp at hm) σ1 h1
  have hshape1 : σ1.map Prod.fst = s1 := by
    have := runNames_shape tasks s1 [] σ1 h1
    simpa using this
  have hchar2 : ∀ m ∈ s2, RunChar tasks σ1 m := by
    intro m hm
    have hm1 : m ∈ s1 := (hv1.1.mem_iff).mpr ((hv2.1.mem_iff).mp hm)
    obtain ⟨t, v, hft, hdeps, hrun, hlook⟩ := hchar1 m (by simpa using hm1)
    exact ⟨t, v, hft, hrun, hlook⟩
  obtain ⟨σ2, hrun2, hkeys2, hagree2⟩ := runNames_exists_aux tasks σ1 s2 []
    hv2.2 (by simpa using hn2) (by intro m hm; simp at hm) hchar2
  refine ⟨σ2, hrun2, ?_⟩
  intro n
  by_cases hn : n ∈ s2
  · exact hagree2 n (by simpa [hkeys2] using hn)
  · have hns1 : n ∉ s1 := fun hmem =>
      hn ((hv2.1.mem_iff).mpr ((hv1.1.mem_iff).mp hmem))
    rw [lookup_eq_none_store σ2 n (by simpa [hkeys2] using hn),
      lookup_eq_none_store σ1 n (by simpa [hshape1] using hns1)]

/-! ## Round-trip of the persistence encoding -/

theorem decodeInts_encode (xs rest : List Int) :
    decodeInts xs.length (xs ++ rest) = some (xs, rest) := by
  induction xs with
  | nil => rfl
  | cons x t ih => simp [decodeInts, ih]

theorem decodeChars_encode (cs : List Char) (rest : List Int) :
    decodeChars cs.length ((cs.map (fun c => (c.toNat : Int))) ++ rest)
      = some (cs, rest) := by
  induction cs with
  | nil => rfl
  | cons c t ih => simp [decodeChars, ih]

theorem decodeString_encode (s : String) (rest : List Int) :
    decodeString (encodeString s ++ rest) = some (s, rest) := by
  unfold encodeString decodeString
  simp only [List.cons_append]
  have hl : ((s.length : Int)).toNat = s.toList.length := by
    rw [Int.toNat_ofNat]
    rfl
  rw [hl, decodeChars_encode s.toList rest]
  rfl

theorem decodeCols_encode (cols : List (String × List Int)) (rest : List Int) :
    decodeCols cols.length
      ((cols.map (fun c => encodeString c.1 ++ ((c.2.length : Int) :: c.2))).flatten ++ rest)
      = some (cols, rest) := by
  induction cols with
  | nil => rfl
  | cons c t ih =>
      obtain ⟨nm, xs⟩ := c
      simp [decodeCols, decodeString_encode, decodeInts_encode, ih,
        List.append_assoc]

theorem decodeValue_encode (v : Value) (rest : List Int) :
    decodeValue (encodeValue v ++ rest) = some (v, rest) := by
  cases v with
  | int n => rfl
  | list xs =>
      simp only [encodeValue, decodeValue, List.cons_append]
      rw [show ((xs.length : Int)).toNat = xs.length from Int.toNat_ofNat _,
        decodeInts_encode xs]
      rfl
  | series xs =>
      simp only [encodeValue, decodeValue, List.cons_append]
      rw [show ((xs.length : Int)).toNat = xs.length from Int.toNat_ofNat _,
        decodeInts_encode xs]
      rfl
  | table cols =>
      simp only [encodeValue, decodeValue, List.cons_append]
      rw [show ((cols.length : Int)).toNat = cols.length from Int.toNat_ofNat _,
        decodeCols_encode cols]
      rfl
  | vnone => rfl

/-! ## Debug controller behaviour on a failing build -/

theorem runDebug_of_runNames_error (tasks : List Task) (mode : DebugMode) :
    ∀ (s : List String) (σ : Store) (n : String) (e : RunError),
      (∀ m ∈ s, (findTask tasks m).isSome = true) →
      runNames tasks σ s = .error (n, e) →
      ∃ t σf, findTask tasks n = some t ∧
        t.run (mkEnv t (storeLookup σf)) = .error e ∧
        runDebug tasks mode σ s =
          (match mode with
           | .normal => ⟨.error (.taskFailed n e), [], []⟩
           | .later => ⟨.error (.taskFailed n e), [n ++ ".dump"], []⟩
           | .now => ⟨.error (.taskFailed n e), [],
               [(fun _ => t.run (mkEnv t (storeLookup σf)), n)]⟩) := by
  intro s
  induction s with
  | nil =>
      intro σ n e _ hfail
      simp only [runNames] at hfail
      exact Except.noConfusion hfail
  | cons m rest ih =>
      intro σ n e hfound hfail
      cases hft : findTask tasks m with
      | none =>
          have := hfound m (List.mem_cons_self m rest)
          rw [hft] at this
          simp at this
      | some t =>
          simp only [runNames, hft] at hfail
          cases hrun : t.run (mkEnv t (storeLookup σ)) with
          | ok v =>
              simp only [hrun] at hfail
              obtain ⟨t', σf, hft', hrun', hdebug⟩ := ih (σ ++ [(m, v)]) n e
                (fun m' hm' => hfound m' (List.mem_cons_of_mem m hm')) hfail
              refine ⟨t', σf, hft', hrun', ?_⟩
              simp only [runDebug, hft, hrun]
              exact hdebug
          | error e' =>
              simp only [hrun] at hfail
              have hne : m = n ∧ e' = e := by
                cases hfail
                exact ⟨rfl, rfl⟩
              obtain ⟨rfl, rfl⟩ := hne
              refine ⟨t, σ, hft, hrun, ?_⟩
              cases mode <;> simp [runDebug, hft, hrun]

/-! ## Concrete functions from the test suite -/

/-- `ones(input_data): return pd.Series(input_data)`. -/
def onesBody : (String → Option Value) → Except RunError Value := fun env =>
  match env "input_data" with
  | some (.list xs) => .ok (.series xs)
  | some _ => .error .typeError
  | none => .error (.nameError "input_data")

/-- `twos(ones): return ones + 1`. -/
def twosBody : (String → Option Value) → Except RunError Value := fun env =>
  match env "ones" with
  | some (.series xs) => .ok (.series (xs.map (· + 1)))
  | some _ => .error .typeError
  | none => .error (.nameError "ones")

/-- `both(ones, twos): return pd.DataFrame({"ones": ones, "twos": twos})`. -/
def bothBody : (String → Option Value) → Except RunError Value := fun env =>
  match env "ones", env "twos" with
  | some (.series a), some (.series b) => .ok (.table [("ones", a), ("twos", b)])
  | _, _ => .error .typeError

def onesF : FuncDef := ⟨"ones", ["input_data"], [], onesBody⟩

def twosF : FuncDef := ⟨"twos", ["ones"], [], twosBody⟩

def bothF : FuncDef := ⟨"both", ["ones", "twos"], [], bothBody⟩

/-- `params={"ones": {"input_data": [1] * 3}}`. -/
def exampleExt : ExtParams := [("ones", [("input_data", .list [1, 1, 1])])]

/-- The three-task example DAG's task list. -/
def exampleTasks : List Task := tasksOf [onesF, twosF, bothF] exampleExt

/-- Expected store of the three-task example. -/
def exampleStore : Store :=
  [("ones", .series [1, 1, 1]), ("twos", .series [2, 2, 2]),
   ("both", .table [("ones", [1, 1, 1]), ("twos", [2, 2, 2])])]

/-- `first(): x = 1; return x` (capture-decorated in the test). -/
def firstF : FuncDef := ⟨"first", [], [], fun _ => .ok (.int 1)⟩

/-- `second(first): pass` — a body with no terminal expression. -/
def secondNoneF : FuncDef := ⟨"second", ["first"], [], fun env =>
  match env "first" with
  | some _ => .ok .vnone
  | none => .error (.nameError "first")⟩

/-- `second(first): return first + 1`. -/
def secondPlusF : FuncDef := ⟨"second", ["first"], [], fun env =>
  match env "first" with
  | some (.int m) => .ok (.int (m + 1))
  | some _ => .error .typeError
  | none => .error (.nameError "first")⟩

/-- `number(): x, y = 1, 0; x / y` — raises ZeroDivisionError. -/
def numberF : FuncDef := ⟨"number", [], [], fun _ =>
  let x : Int := 1
  let y : Int := 0
  if y = 0 then .error .zeroDivision else .ok (.int (x / y))⟩

/-- `root(input_data): x = input_data + 1; return x` with no params supplied
(the failing test `test_decorated_root_with_input_data`). -/
def rootInputF : FuncDef := ⟨"root", ["input_data"], [], fun env =>
  match env "input_data" with
  | some (.int m) => .ok (.int (m + 1))
  | some _ => .error .typeError
  | none => .error (.nameError "input_data")⟩

/-- `root(): return 1`. -/
def rootNoArgF : FuncDef := ⟨"root", [], [], fun _ => .ok (.int 1)⟩

/-- `add(root): return root + 1`. -/
def addRootF : FuncDef := ⟨"add", ["root"], [], fun env =>
  match env "root" with
  | some (.int m) => .ok (.int (m + 1))
  | some _ => .error .typeError
  | none => .error (.nameError "root")⟩

/-! ## A function with an unmatched parameter name -/

theorem tasksOf_single (f : FuncDef) (ext : ExtParams)
    (hgrid : f.grids = []) (hself : f.name ∉ f.params) :
    tasksOf [f] ext = [⟨f.name, [], paramsFor ext f.name, f.run⟩] := by
  unfold tasksOf tasksOfFunc
  simp only [List.map_cons, List.map_nil, List.flatten_cons, List.flatten_nil,
    List.append_nil]
  rw [hgrid]
  simp only [variantsOf, variantBindings, variantNames]
  simp
  intro a ha
  exact fun h => hself (h ▸ ha)

theorem serialScheduleOf_single (t : Task) (hdeps : t.deps = []) :
    serialScheduleOf [t] = [t.name] := by
  simp [serialScheduleOf, serialAux, readyNames, hdeps]

theorem dagFromFunctionsE_single (f : FuncDef) (ext : ExtParams) (out : String)
    (hgrid : f.grids = []) (hself : f.name ∉ f.params) :
    dagFromFunctionsE [f] ext out =
      .ok ⟨[⟨f.name, [], paramsFor ext f.name, f.run⟩], out⟩ := by
  have h1 := tasksOf_single f ext hgrid hself
  have h2 := serialScheduleOf_single ⟨f.name, [], paramsFor ext f.name, f.run⟩ rfl
  simp [dagFromFunctionsE, h1, h2]

/-- The three-task example DAG (with output location `cache`, as in the
test). -/
def exampleDag : Dag := ⟨exampleTasks, "cache"⟩

theorem mkEnv_none (t : Task) (r : String → Option Value) (p : String)
    (henv0 : t.env0.lookup p = none) (hdep : t.deps.contains p = false) :
    mkEnv t r p = none := by
  unfold mkEnv
  rw [henv0, hdep]
  simp

theorem runNames_single_fail (t : Task) (e : RunError)
    (hrun : t.run (mkEnv t (storeLookup [])) = .error e) :
    runNames [t] [] [t.name] = .error (t.name, e) := by
  simp [runNames, findTask, List.find?, hrun]

/-! ## The claims -/

/-- C1: for every function with a single grid declaration, grid expansion
produces one binding per element of the cross-product of the declared value
sequences, iterating the rightmost-declared parameter fastest (the `i`-th
binding assigns parameter `p_j` the value indexed by `(i / block_j) % |v_j|`);
in particular `add(ones, a, b)` under grid `{a: [1, 2], b: [3, 4]}` yields
exactly 4 variants named `add-0 .. add-3` bound in the order
`(a=1,b=3), (a=1,b=4), (a=2,b=3), (a=2,b=4)`. -/
theorem claims_C1 :
    (∀ (g : Grid) (i : Nat), i < gridSize g →
      (expandGrid g)[i]? = some (mixedRadix g i)) ∧
    (∀ g : Grid, (expandGrid g).length = gridSize g) ∧
    variantsOf "add" [[("a", [1, 2]), ("b", [3, 4])]] =
      [("add-0", [("a", 1), ("b", 3)]), ("add-1", [("a", 1), ("b", 4)]),
       ("add-2", [("a", 2), ("b", 3)]), ("add-3", [("a", 2), ("b", 4)])] :=
  ⟨expandGrid_getElem?, length_expandGrid, by decide⟩

/-- Witness for C1 at the `add` grid and index 1. -/
theorem claims_C1_witness :
    1 < gridSize [("a", [1, 2]), ("b", [3, 4])] ∧
    (expandGrid [("a", [1, 2]), ("b", [3, 4])])[1]? =
      some (mixedRadix [("a", [1, 2]), ("b", [3, 4])] 1) :=
  ⟨by decide, claims_C1.1 [("a", [1, 2]), ("b", [3, 4])] 1 (by decide)⟩

/-- C2: for stacked grid declarations the final ordered variant list is the
concatenation of the independent expansions, the declaration nearer the
function first, with 0-based indices over the concatenated order; in
particular `add_many` under the two stacked grids yields 8 variants,
`add_many-0 .. add_many-7`, inner block first. -/
theorem claims_C2 :
    (∀ g1 g2 : Grid, expandStacked [g2, g1] = expandGrid g2 ++ expandGrid g1) ∧
    (∀ gs : List Grid, (expandStacked gs).length = (gs.map gridSize).sum) ∧
    variantsOf "add_many"
        [[("a", [5, 6]), ("b", [7, 8])], [("a", [1, 2]), ("b", [3, 4])]] =
      [("add_many-0", [("a", 5), ("b", 7)]), ("add_many-1", [("a", 5), ("b", 8)]),
       ("add_many-2", [("a", 6), ("b", 7)]), ("add_many-3", [("a", 6), ("b", 8)]),
       ("add_many-4", [("a", 1), ("b", 3)]), ("add_many-5", [("a", 1), ("b", 4)]),
       ("add_many-6", [("a", 2), ("b", 3)]), ("add_many-7", [("a", 2), ("b", 4)])] := by
  refine ⟨?_, ?_, by decide⟩
  · intro g1 g2
    simp [expandStacked]
  · intro gs
    induction gs with
    | nil => rfl
    | cons g t ih =>
        simp only [expandStacked, List.map_cons, List.flatten_cons,
          List.length_append, List.sum_cons, length_expandGrid]
        simp only [expandStacked] at ih
        rw [ih]

/-- C3: execution policy does not affect results: for every task list with
distinct names whose serial and parallel schedules are valid, a successful
serial build determines a successful parallel build with identical outputs
per task name; in particular the `ones`/`twos`/`both` example persists
`ones = series [1,1,1]`, `twos = series [2,2,2]` and `both` combining the
two, under both policies. -/
theorem claims_C3 :
    (∀ tasks : List Task, (tasks.map Task.name).Nodup →
      validSchedule tasks (serialScheduleOf tasks) →
      validSchedule tasks (parallelScheduleOf tasks) →
      ∀ σs, runNames tasks [] (serialScheduleOf tasks) = .ok σs →
      ∃ σp, runNames tasks [] (parallelScheduleOf tasks) = .ok σp ∧
        ∀ n, σp.lookup n = σs.lookup n) ∧
    buildSerial exampleDag = .ok exampleStore ∧
    buildParallel exampleDag = .ok exampleStore ∧
    exampleStore.lookup "ones" = some (.series [1, 1, 1]) ∧
    exampleStore.lookup "twos" = some (.series [2, 2, 2]) ∧
    exampleStore.lookup "both" =
      some (.table [("ones", [1, 1, 1]), ("twos", [2, 2, 2])]) := by
  refine ⟨?_, by rfl, by rfl, by decide, by decide, by decide⟩
  intro tasks hnodup hv1 hv2 σs hσ
  exact runNames_deterministic tasks hnodup _ _ hv1 hv2 σs hσ

/-- Witness for C3 at the `ones`/`twos`/`both` example. -/
theorem claims_C3_witness :
    (exampleTasks.map Task.name).Nodup ∧
    validSchedule exampleTasks (serialScheduleOf exampleTasks) ∧
    validSchedule exampleTasks (parallelScheduleOf exampleTasks) ∧
    runNames exampleTasks [] (serialScheduleOf exampleTasks) = .ok exampleStore ∧
    ∃ σp, runNames exampleTasks [] (parallelScheduleOf exampleTasks) = .ok σp ∧
      ∀ n, σp.lookup n = exampleStore.lookup n :=
  ⟨by decide, ⟨by decide, by decide⟩, ⟨by decide, by decide⟩, by rfl,
   claims_C3.1 exampleTasks (by decide) ⟨by decide, by decide⟩
     ⟨by decide, by decide⟩ exampleStore (by rfl)⟩

/-- C4 counterexample: for `root(input_data)` with no parameters supplied,
graph construction succeeds (no unresolved-dependency validation happens)
and the build then fails during execution with a name-resolution error
inside the running task — the claim's construction-time error does not
occur. -/
theorem claims_C4_counterexample :
    (dagFromFunctionsE [rootInputF] [] "output").isOk = true ∧
    buildFromFunctions [rootInputF] [] "output" =
      .error (.taskFailed "root" (.nameError "input_data")) :=
  ⟨by decide, by rfl⟩

/-- C4 (amended): a declared parameter name matching neither a known task
base name nor a provided external parameter is not rejected at
graph-construction time; construction succeeds and the task fails at
execution with a name-resolution error inside the running task, aborting
the build. -/
theorem claims_C4 (f : FuncDef) (ext : ExtParams) (p : String)
    (hgrid : f.grids = []) (hself : f.name ∉ f.params) (hp : p ∈ f.params)
    (hnotask : p ≠ f.name)
    (hnoext : (paramsFor ext f.name).lookup p = none)
    (hbody : ∀ env, env p = none → f.run env = .error (.nameError p)) :
    (dagFromFunctionsE [f] ext "output").isOk = true ∧
    buildFromFunctions [f] ext "output" =
      .error (.taskFailed f.name (.nameError p)) := by
  have hdag := dagFromFunctionsE_single f ext "output" hgrid hself
  have henvp : mkEnv ⟨f.name, [], paramsFor ext f.name, f.run⟩
      (storeLookup []) p = none :=
    mkEnv_none _ _ _ hnoext rfl
  have hrun : (⟨f.name, [], paramsFor ext f.name, f.run⟩ : Task).run
      (mkEnv ⟨f.name, [], paramsFor ext f.name, f.run⟩ (storeLookup [])) =
      .error (.nameError p) := hbody _ henvp
  have hfail := runNames_single_fail ⟨f.name, [], paramsFor ext f.name, f.run⟩
    (.nameError p) hrun
  constructor
  · rw [hdag]; rfl
  · simp only [buildFromFunctions, hdag, buildSerial]
    rw [serialScheduleOf_single ⟨f.name, [], paramsFor ext f.name, f.run⟩ rfl]
    rw [hfail]

/-- Witness for C4 (amended) at `root(input_data)`. -/
theorem claims_C4_witness :
    (dagFromFunctionsE [rootInputF] [] "output").isOk = true ∧
    buildFromFunctions [rootInputF] [] "output" =
      .error (.taskFailed "root" (.nameError "input_data")) :=
  claims_C4 rootInputF [] "input_data" rfl (by decide) (by decide) (by decide)
    rfl (fun env h => by simp only [rootInputF, h])

/-- C5: in the specified semantics a task body with no terminal expression
is permitted: the two-capture-task DAG `first`/`second` (where `second`
returns nothing) builds successfully, `second` contributes no persisted
primary output, and `first`'s output is persisted normally.  (The shipped
code violates this: its own test `test_capture_can_return_nothing` is
annotated as failing while unpickling the HTML document.) -/
theorem claims_C5 :
    buildFromFunctionsDefault [firstF, secondNoneF] [] =
      .ok [("first", .int 1), ("second", .vnone)] ∧
    persistFiles "output" [("first", .int 1), ("second", .vnone)] =
      [("output/first", encodeValue (.int 1))] :=
  ⟨by rfl, by decide⟩

/-- C6: in the specified semantics persisted primary outputs round-trip:
decoding an encoded value returns the value, and for the capture pair
`first`/`second` the persisted output of `second` decodes to the same value
obtained by executing its body directly with `first = 1`.  (The shipped code
violates the consuming case: `test_capture_that_depends_on_capture` is
annotated as failing while unpickling the HTML.) -/
theorem claims_C6 :
    (∀ (v : Value) (rest : List Int),
      decodeValue (encodeValue v ++ rest) = some (v, rest)) ∧
    buildFromFunctionsDefault [firstF, secondPlusF] [] =
      .ok [("first", .int 1), ("second", .int 2)] ∧
    (persistFiles "output" [("first", .int 1), ("second", .int 2)]).lookup
      "output/second" = some (encodeValue (.int 2)) ∧
    decodeValue (encodeValue (.int 2)) = some (.int 2, []) ∧
    secondPlusF.run (fun k => if k == "first" then some (.int 1) else none) =
      .ok (.int 2) :=
  ⟨decodeValue_encode, by rfl, by decide, by decide, by rfl⟩

/-- C7: when a task fails during execution and the debug mode is `later`,
the build persists a snapshot named exactly `<task_name>.dump` and raises a
build-level error wrapping the original cause. -/
theorem claims_C7 (tasks : List Task) (σ : Store) (s : List String)
    (n : String) (e : RunError)
    (hfound : ∀ m ∈ s, (findTask tasks m).isSome = true)
    (hfail : runNames tasks σ s = .error (n, e)) :
    (runDebug tasks .later σ s).result = .error (.taskFailed n e) ∧
    (runDebug tasks .later σ s).dumps = [n ++ ".dump"] := by
  obtain ⟨t, σf, _, _, hdebug⟩ :=
    runDebug_of_runNames_error tasks .later s σ n e hfound hfail
  exact ⟨by rw [hdebug], by rw [hdebug]⟩

/-- Witness for C7 at the failing `number` task. -/
theorem claims_C7_witness :
    runNames (tasksOf [numberF] []) [] ["number"] =
      .error ("number", .zeroDivision) ∧
    (runDebug (tasksOf [numberF] []) .later [] ["number"]).result =
      .error (.taskFailed "number" .zeroDivision) ∧
    (runDebug (tasksOf [numberF] []) .later [] ["number"]).dumps =
      ["number.dump"] := by
  have h := claims_C7 (tasksOf [numberF] []) [] ["number"] "number" .zeroDivision
    (by decide) (by rfl)
  exact ⟨by rfl, h.1, by rw [h.2]; decide⟩

/-- C8: when a task fails during execution and the debug mode is `now`, the
interactive attach hook is invoked with the failing task's name and a
callable that reproduces the original exception when called, before the
exception propagates. -/
theorem claims_C8 (tasks : List Task) (σ : Store) (s : List String)
    (n : String) (e : RunError)
    (hfound : ∀ m ∈ s, (findTask tasks m).isSome = true)
    (hfail : runNames tasks σ s = .error (n, e)) :
    (runDebug tasks .now σ s).result = .error (.taskFailed n e) ∧
    ∃ c, (runDebug tasks .now σ s).hookCalls = [(c, n)] ∧
      c () = .error e := by
  obtain ⟨t, σf, _, hrun, hdebug⟩ :=
    runDebug_of_runNames_error tasks .now s σ n e hfound hfail
  exact ⟨by rw [hdebug],
    ⟨fun _ => t.run (mkEnv t (storeLookup σf)), by rw [hdebug], hrun⟩⟩

/-- Witness for C8 at the failing `number` task. -/
theorem claims_C8_witness :
    runNames (tasksOf [numberF] []) [] ["number"] =
      .error ("number", .zeroDivision) ∧
    (runDebug (tasksOf [numberF] []) .now [] ["number"]).result =
      .error (.taskFailed "number" .zeroDivision) ∧
    ∃ c, (runDebug (tasksOf [numberF] []) .now [] ["number"]).hookCalls =
      [(c, "number")] ∧ c () = .error .zeroDivision := by
  have h := claims_C8 (tasksOf [numberF] []) [] ["number"] "number" .zeroDivision
    (by decide) (by rfl)
  exact ⟨by rfl, h.1, h.2⟩

/-- C9: tag scanning extracts the maximal run of word characters and
hyphens after `# tag=` on any line — for every source whose first
tag-comment line splits as whitespace, the marker, a non-empty word/hyphen
run `v` and then either nothing or a character outside the run alphabet,
the scanner returns exactly `v` (arbitrary whitespace before the `#`,
including in multi-line statement sources); and it returns no tag — never
an error — when no such line exists. -/
theorem claims_C9 :
    (∀ (src : String) (pre : List (List Char)) (l : List Char)
      (suf : List (List Char)) (ws v rest : List Char),
      splitLines src.toList = pre ++ l :: suf →
      (∀ m ∈ pre, ¬ SpecTagLine m) →
      l = ws ++ tagMarker ++ v ++ rest →
      (∀ c ∈ ws, isBlankChar c) → v ≠ [] →
      (∀ c ∈ v, isWordOrHyphen c) →
      (∀ c cs, rest = c :: cs → isWordOrHyphen c = false) →
      parse_tag src = some (String.mk v)) ∧
    parse_tag "# tag=plot" = some "plot" ∧
    parse_tag "# tag=cool_plot" = some "cool_plot" ∧
    parse_tag "# tag=cool-plot" = some "cool-plot" ∧
    parse_tag "# tag=plot0" = some "plot0" ∧
    parse_tag "# tag=0plot" = some "0plot" ∧
    parse_tag "\n    # tag=plot\n    plot.confusion_matrix(y_test, y_pred)\n" =
      some "plot" ∧
    ∀ src : String, (∀ l ∈ splitLines src.toList, ¬ SpecTagLine l) →
      parse_tag src = none :=
  ⟨parse_tag_first_tag_line, by decide, by decide, by decide, by decide,
   by decide, by decide, parse_tag_eq_none_of_no_tag_line⟩

/-- Witness for C9: the positive half at a source with trailing text after
the tag value (`# tag=plot(x)` yields `plot`, not the rest of the line),
and the no-tag half at the source `x = 1`. -/
theorem claims_C9_witness :
    parse_tag "# tag=plot(x)" = some "plot" ∧
    parse_tag "x = 1" = none := by
  constructor
  · have h := claims_C9.1 "# tag=plot(x)" [] ("# tag=plot(x)".toList) []
      [] ['p', 'l', 'o', 't'] ['(', 'x', ')']
      (by decide) (by intro m hm; simp at hm) (by decide)
      (by intro c hc; simp at hc) (by decide) (by decide)
      (by intro c cs hcs; cases hcs; decide)
    exact h
  · have hsingle : splitLines ("x = 1".toList) = ["x = 1".toList] := by decide
    have hno : ∀ l ∈ splitLines ("x = 1".toList), ¬ SpecTagLine l := by
      intro l hl hspec
      rw [hsingle, List.mem_singleton] at hl
      obtain ⟨ws, v, rest, heq, _, hv, _⟩ := hspec
      rw [hl] at heq
      have hlen := congrArg List.length heq
      rw [List.length_append, List.length_append, List.length_append] at hlen
      have h5 : ("x = 1".toList).length = 5 := by decide
      have h6 : tagMarker.length = 6 := by decide
      have hvpos : 0 < v.length := List.length_pos.mpr hv
      rw [h5, h6] at hlen
      omega
    exact claims_C9.2.2.2.2.2.2.2 "x = 1" hno

/-- C10: when no output location is given, outputs are persisted under the
default directory `output`, keyed by task name; in particular the
`root`/`add` example persists `output/root = 1` and `output/add = 2`. -/
theorem claims_C10 :
    (∀ (funcs : List FuncDef) (ext : ExtParams),
      dagFromFunctions funcs ext = dagFromFunctionsE funcs ext "output") ∧
    buildFromFunctionsDefault [rootNoArgF, addRootF] [] =
      .ok [("root", .int 1), ("add", .int 2)] ∧
    persistFiles "output" [("root", .int 1), ("add", .int 2)] =
      [("output/root", encodeValue (.int 1)), ("output/add", encodeValue (.int 2))] :=
  ⟨fun _ _ => rfl, by rfl, by decide⟩

end PloomberInline
